import Mathlib

/-!
Verification development for the in-memory LLM response cache of
`bluegitter/one-api` (`src/middleware/llm_cache.go`, model layer and
middleware layer, plus `src/controller/llm_cache.go`).

The Go code is shallowly embedded: the process-wide mutable globals
(`LLMCacheEnabled`, `LLMCacheTTL`, ..., `llmCache`, `llmCacheStats`,
`llmCacheConfig`) become an explicit `CacheState` record threaded through
the operations; `time.Now().Unix()` becomes an explicit `now : Nat`
parameter; the Go `map[string]*LLMCacheItem` becomes an association list
with Go-map get/set/delete semantics (range order being the list order,
one admissible order of Go's nondeterministic map iteration); the
fire-and-forget Redis mirror writes, which never touch the primary store,
are omitted; log statements are omitted.
-/

/-! ## Association-list model of Go maps -/

/-- Go map read `v, ok := m[k]` : first binding of the key, if any. -/
def mapGet {κ ν : Type} [DecidableEq κ] : List (κ × ν) → κ → Option ν
  | [], _ => none
  | p :: rest, k => if p.1 = k then some p.2 else mapGet rest k

/-- Go map write `m[k] = v` : replace the binding if present, else append. -/
def mapSet {κ ν : Type} [DecidableEq κ] : List (κ × ν) → κ → ν → List (κ × ν)
  | [], k, v => [(k, v)]
  | p :: rest, k, v => if p.1 = k then (k, v) :: rest else p :: mapSet rest k v

/-- Go map delete `delete(m, k)` : drop the bindings of the key. -/
def mapDel {κ ν : Type} [DecidableEq κ] (l : List (κ × ν)) (k : κ) : List (κ × ν) :=
  l.filter (fun p => p.1 ≠ k)

/-! ## Request / response data model

The relay model types (`GeneralOpenAIRequest`, `Message`, `TextResponse`,
`Usage`) live outside `src/`. Modelled from the spec: "a typed request
record (model name, message list, sampling parameters, stream flag)" and
"a typed response record (choices with message content, usage
accounting)"; `Message.StringContent()` is the extraction of the textual
content of a message. Go `*float64` fields become `Option GoFloat`;
a `GoFloat` is either a finite value carrying its decimal rendering, or a
non-representable value (NaN / infinity) on which `json.Marshal` fails. -/

/-- Go `float64` as seen by `encoding/json`: finite values carry their
decimal rendering; NaN and the infinities are not representable. -/
inductive GoFloat where
  | finite (render : String)
  | nan
  | posinf
  | neginf
deriving DecidableEq, Repr

/-- Modelled from the spec: one chat message of the request/response
payload (role and textual content). -/
structure Message where
  Role : String
  Content : String
deriving DecidableEq, Repr

/-- Modelled from the spec: `Message.StringContent()` extracts the textual
content of the message. -/
def Message.StringContent (m : Message) : String := m.Content

/-- Modelled from the spec: one choice of an upstream chat response. -/
structure TextResponseChoice where
  Message : Message
deriving DecidableEq, Repr

/-- Modelled from the spec: resource-accounting payload of a response. -/
structure Usage where
  PromptTokens : Nat
  CompletionTokens : Nat
  TotalTokens : Nat
deriving DecidableEq, Repr

/-- Modelled from the spec: the upstream response record (choices with
message content, usage accounting). -/
structure TextResponse where
  Choices : List TextResponseChoice
  Usage : Usage
deriving DecidableEq, Repr

/-- Modelled from the spec: the inbound request record. The eight
cache-relevant fields are those read by `GenerateCacheKey`; `User` stands
for the remaining fields that do not participate in fingerprinting. -/
structure GeneralOpenAIRequest where
  Model : String
  Messages : List Message
  MaxTokens : Nat
  Temperature : Option GoFloat
  TopP : Option GoFloat
  FrequencyPenalty : Option GoFloat
  PresencePenalty : Option GoFloat
  Stream : Bool
  User : String
deriving DecidableEq, Repr

/-! ## String helpers (Go `len`, `strings.ToLower`, `strings.Contains`) -/

/-- UTF-8 encoding of one code point, as a list of byte values. -/
def utf8BytesOfChar (c : Nat) : List Nat :=
  if c < 0x80 then [c]
  else if c < 0x800 then
    [0xc0 ||| (c >>> 6), 0x80 ||| (c &&& 0x3f)]
  else if c < 0x10000 then
    [0xe0 ||| (c >>> 12), 0x80 ||| ((c >>> 6) &&& 0x3f), 0x80 ||| (c &&& 0x3f)]
  else
    [0xf0 ||| (c >>> 18), 0x80 ||| ((c >>> 12) &&& 0x3f),
     0x80 ||| ((c >>> 6) &&& 0x3f), 0x80 ||| (c &&& 0x3f)]

/-- The UTF-8 bytes of a string (a Go `string` is a byte sequence). -/
def strBytes (s : String) : List Nat :=
  (s.toList.map (fun c => utf8BytesOfChar c.toNat)).flatten

/-- Go `len(s)` on a string: its UTF-8 byte length. -/
def goLen (s : String) : Nat := s.utf8ByteSize

/-- ASCII lower-casing of one character (the fragment of
`strings.ToLower` relevant to the ASCII filter words of `shouldCache`). -/
def charToLower (c : Char) : Char :=
  if 'A' ≤ c ∧ c ≤ 'Z' then Char.ofNat (c.toNat + 32) else c

/-- Model of `strings.ToLower` on the relevant ASCII fragment. -/
def toLowerStr (s : String) : String := String.mk (s.toList.map charToLower)

/-- Whether the pattern is a leading segment of the character list. -/
def listStartsWith : List Char → List Char → Bool
  | _, [] => true
  | [], _ :: _ => false
  | a :: as, b :: bs => a == b && listStartsWith as bs

/-- Whether the pattern occurs contiguously inside the character list. -/
def listContainsSeq : List Char → List Char → Bool
  | [], pat => pat.isEmpty
  | l@(_ :: rest), pat => listStartsWith l pat || listContainsSeq rest pat

/-- Model of Go `strings.Contains` (for ASCII patterns, byte-level and
character-level containment coincide under UTF-8). -/
def strContains (s pat : String) : Bool := listContainsSeq s.toList pat.toList

/-! ## Canonical JSON serialization used by `GenerateCacheKey`

`GenerateCacheKey` marshals a `map[string]interface{}` of the eight
cache-relevant fields; `encoding/json` renders Go maps with keys in sorted
order, so the field order below is the lexicographic order of the key
strings. Modelled from the spec for the parts outside `src/`: the byte
rendering of messages and of float values ("canonical byte encoding" with
"field order fixed and deterministic"); marshalling fails exactly on a
non-representable (NaN/Inf) float value. -/

/-- JSON escaping of one character (the common-range fragment of Go's
encoder: quote, backslash and ASCII control characters). -/
def jsonEscapeChar (c : Char) : String :=
  if c = '"' then "\\\""
  else if c = '\\' then "\\\\"
  else if c = '\n' then "\\n"
  else if c = '\t' then "\\t"
  else if c = '\r' then "\\r"
  else String.singleton c

/-- JSON string literal. -/
def jsonStr (s : String) : String :=
  "\"" ++ String.join (s.toList.map jsonEscapeChar) ++ "\""

/-- JSON rendering of an optional float field (`*float64`): `null` for the
nil pointer, the decimal rendering for a finite value, and failure for a
non-representable value. -/
def jsonOptFloat : Option GoFloat → Option String
  | none => some "null"
  | some (GoFloat.finite r) => some r
  | some _ => none

/-- JSON rendering of one message object. -/
def jsonMessage (m : Message) : String :=
  "\x7b" ++ jsonStr "role" ++ ":" ++ jsonStr m.Role ++ ","
    ++ jsonStr "content" ++ ":" ++ jsonStr m.Content ++ "\x7d"

/-- JSON rendering of the ordered message list. -/
def jsonMessages (ms : List Message) : String :=
  "[" ++ String.intercalate "," (ms.map jsonMessage) ++ "]"

/-- JSON rendering of a bool. -/
def jsonBool (b : Bool) : String := if b then "true" else "false"

/-- The canonical serialization of the `cacheData` map built by
`GenerateCacheKey`: the eight cache-relevant fields, keys in Go's
sorted-map-key order; `none` exactly when a float field is
non-representable (the `json.Marshal` error path). -/
def marshalCacheData (request : GeneralOpenAIRequest) : Option String :=
  match jsonOptFloat request.FrequencyPenalty, jsonOptFloat request.PresencePenalty,
        jsonOptFloat request.Temperature, jsonOptFloat request.TopP with
  | some fp, some pp, some temp, some tp =>
      some ("\x7b" ++ jsonStr "frequency_penalty" ++ ":" ++ fp
        ++ "," ++ jsonStr "max_tokens" ++ ":" ++ toString request.MaxTokens
        ++ "," ++ jsonStr "messages" ++ ":" ++ jsonMessages request.Messages
        ++ "," ++ jsonStr "model" ++ ":" ++ jsonStr request.Model
        ++ "," ++ jsonStr "presence_penalty" ++ ":" ++ pp
        ++ "," ++ jsonStr "stream" ++ ":" ++ jsonBool request.Stream
        ++ "," ++ jsonStr "temperature" ++ ":" ++ temp
        ++ "," ++ jsonStr "top_p" ++ ":" ++ tp ++ "\x7d")
  | _, _, _, _ => none

/-! ## SHA-256 (`crypto/sha256`, FIPS 180-4), over byte lists -/

/-- Addition modulo 2^32. -/
def add32 (a b : Nat) : Nat := (a + b) % 4294967296

/-- Right rotation of a 32-bit word. -/
def rotr32 (n x : Nat) : Nat := ((x >>> n) ||| (x <<< (32 - n))) &&& 0xffffffff

/-- The 64 SHA-256 round constants (the 32 high bits of the fractional
parts of the cube roots of the first 64 primes), written in decimal. -/
def shaK : List Nat :=
  [1116352408, 1899447441, 3049323471, 3921009573, 961987163, 1508970993,
   2453635748, 2870763221, 3624381080, 310598401, 607225278, 1426881987,
   1925078388, 2162078206, 2614888103, 3248222580, 3835390401, 4022224774,
   264347078, 604807628, 770255983, 1249150122, 1555081692, 1996064986,
   2554220882, 2821834349, 2952996808, 3210313671, 3336571891, 3584528711,
   113926993, 338241895, 666307205, 773529912, 1294757372, 1396182291,
   1695183700, 1986661051, 2177026350, 2456956037, 2730485921, 2820302411,
   3259730800, 3345764771, 3516065817, 3600352804, 4094571909, 275423344,
   430227734, 506948616, 659060556, 883997877, 958139571, 1322822218,
   1537002063, 1747873779, 1955562222, 2024104815, 2227730452, 2361852424,
   2428436474, 2756734187, 3204031479, 3329325298]

/-- The eight SHA-256 initial hash words (the 32 high bits of the
fractional parts of the square roots of the first 8 primes), in decimal. -/
def shaH0 : List Nat :=
  [1779033703, 3144134277, 1013904242, 2773480762, 1359893119, 2600822924,
   528734635, 1541459225]

/-- Group bytes into big-endian 32-bit words. -/
def bytesToWordsBE : List Nat → List Nat
  | b0 :: b1 :: b2 :: b3 :: rest =>
      ((((b0 <<< 8) ||| b1) <<< 8 ||| b2) <<< 8 ||| b3) :: bytesToWordsBE rest
  | _ => []

/-- Big-endian bytes of a 32-bit word. -/
def wordToBytesBE (w : Nat) : List Nat :=
  [(w >>> 24) &&& 0xff, (w >>> 16) &&& 0xff, (w >>> 8) &&& 0xff, w &&& 0xff]

/-- Big-endian 8-byte rendering of the message bit length. -/
def natToBytesBE8 (n : Nat) : List Nat :=
  [(n >>> 56) &&& 0xff, (n >>> 48) &&& 0xff, (n >>> 40) &&& 0xff, (n >>> 32) &&& 0xff,
   (n >>> 24) &&& 0xff, (n >>> 16) &&& 0xff, (n >>> 8) &&& 0xff, n &&& 0xff]

/-- SHA-256 padding: a 1 bit, zeros to 56 mod 64 bytes, then the bit length. -/
def shaPad (msg : List Nat) : List Nat :=
  let z := (119 - msg.length % 64) % 64
  msg ++ 0x80 :: List.replicate z 0 ++ natToBytesBE8 (msg.length * 8)

/-- Split a (padded) byte list into 64-byte blocks, with fuel. -/
def shaChunksF : Nat → List Nat → List (List Nat)
  | 0, _ => []
  | _, [] => []
  | fuel + 1, l@(_ :: _) => l.take 64 :: shaChunksF fuel (l.drop 64)

/-- Split a (padded) byte list into 64-byte blocks. -/
def shaChunks (l : List Nat) : List (List Nat) := shaChunksF l.length l

/-- Extend the 16 message words to the 64-entry message schedule. -/
def shaExtend : Nat → List Nat → List Nat
  | 0, w => w
  | n + 1, w =>
      let i := w.length
      let x15 := w.getD (i - 15) 0
      let x2 := w.getD (i - 2) 0
      let s0 := rotr32 7 x15 ^^^ rotr32 18 x15 ^^^ (x15 >>> 3)
      let s1 := rotr32 17 x2 ^^^ rotr32 19 x2 ^^^ (x2 >>> 10)
      shaExtend n (w ++ [add32 (add32 (w.getD (i - 16) 0) s0) (add32 (w.getD (i - 7) 0) s1)])

/-- The eight working variables of the compression loop. -/
structure ShaState where
  a : Nat
  b : Nat
  c : Nat
  d : Nat
  e : Nat
  f : Nat
  g : Nat
  h : Nat

/-- One round of the SHA-256 compression function, consuming one
(round-constant, schedule-word) pair. -/
def shaCompressWord (st : ShaState) (kw : Nat × Nat) : ShaState :=
  let S1 := rotr32 6 st.e ^^^ rotr32 11 st.e ^^^ rotr32 25 st.e
  let ch := (st.e &&& st.f) ^^^ ((st.e ^^^ 0xffffffff) &&& st.g)
  let temp1 := add32 st.h (add32 S1 (add32 ch (add32 kw.1 kw.2)))
  let S0 := rotr32 2 st.a ^^^ rotr32 13 st.a ^^^ rotr32 22 st.a
  let maj := (st.a &&& st.b) ^^^ (st.a &&& st.c) ^^^ (st.b &&& st.c)
  let temp2 := add32 S0 maj
  ⟨add32 temp1 temp2, st.a, st.b, st.c, add32 st.d temp1, st.e, st.f, st.g⟩

/-- Process one 64-byte block, updating the eight hash words. -/
def shaCompressBlock (hs : List Nat) (block : List Nat) : List Nat :=
  let w := shaExtend 48 (bytesToWordsBE block)
  let init : ShaState :=
    ⟨hs.getD 0 0, hs.getD 1 0, hs.getD 2 0, hs.getD 3 0,
     hs.getD 4 0, hs.getD 5 0, hs.getD 6 0, hs.getD 7 0⟩
  let st := (shaK.zip w).foldl shaCompressWord init
  [add32 (hs.getD 0 0) st.a, add32 (hs.getD 1 0) st.b, add32 (hs.getD 2 0) st.c,
   add32 (hs.getD 3 0) st.d, add32 (hs.getD 4 0) st.e, add32 (hs.getD 5 0) st.f,
   add32 (hs.getD 6 0) st.g, add32 (hs.getD 7 0) st.h]

/-- SHA-256 digest of a byte list, as the list of its 32 bytes. -/
def sha256Bytes (msg : List Nat) : List Nat :=
  let hs := (shaChunks (shaPad msg)).foldl shaCompressBlock shaH0
  (hs.map wordToBytesBE).flatten

/-- One lowercase hexadecimal digit. -/
def hexDigitChar (n : Nat) : Char :=
  if n < 10 then Char.ofNat (48 + n) else Char.ofNat (87 + n)

/-- Lowercase hexadecimal rendering of a byte list (Go `fmt` verb `x`
applied to a byte array: two lowercase digits per byte). -/
def hexOfBytes (bs : List Nat) : String :=
  String.mk (bs.foldr (fun b acc => hexDigitChar (b / 16) :: hexDigitChar (b % 16) :: acc) [])

/-- Embedding of `GenerateCacheKey` (src/middleware/llm_cache.go, model
layer, lines 288-311): serialize the eight cache-relevant fields, and on
success return `llm_cache:` followed by the lowercase-hex SHA-256 of the
serialization; on a marshalling error return the empty string. -/
def GenerateCacheKey (request : GeneralOpenAIRequest) : String :=
  match marshalCacheData request with
  | none => ""
  | some jsonData => "llm_cache:" ++ hexOfBytes (sha256Bytes (strBytes jsonData))

/-! ## Cache state (the process-wide globals of the model layer) -/

/-- A value of the diagnostic `RequestParams` map of an entry
(`map[string]interface{}` holding the float64 sampling parameters and the
int `max_tokens`). -/
inductive RequestParamValue where
  | floatV (f : GoFloat)
  | intV (n : Nat)
deriving DecidableEq, Repr

/-- Embedding of `LLMCacheItem` (src/middleware/llm_cache.go, model layer,
lines 225-235). Timestamps are Unix seconds. -/
structure LLMCacheItem where
  RequestHash : String
  Model : String
  Response : TextResponse
  Usage : Usage
  CreatedAt : Nat
  ExpiresAt : Nat
  HitCount : Nat
  LastAccessed : Nat
  RequestParams : List (String × RequestParamValue)
deriving DecidableEq, Repr

/-- Embedding of `LLMCacheStats` (lines 238-245); the Go counters are
`int64`, embedded as `Int`. -/
structure LLMCacheStats where
  TotalItems : Int
  Hits : Int
  Misses : Int
  Evictions : Int
  TotalSize : Int
  MaxSize : Int
deriving DecidableEq, Repr

/-- The zero-valued `LLMCacheStats` (Go composite literal `&LLMCacheStats{}`). -/
def emptyLLMCacheStats : LLMCacheStats := ⟨0, 0, 0, 0, 0, 0⟩

/-- Embedding of `LLMCacheConfig` (lines 248-255). -/
structure LLMCacheConfig where
  Enabled : Bool
  TTL : Nat
  MaxSize : Nat
  MinResponseLength : Nat
  MaxResponseLength : Nat
  SimilarityThreshold : GoFloat
deriving DecidableEq, Repr

/-- The process-wide mutable state of the model layer: the configuration
variables of lines 215-222 (note `LLMCacheEnabled` is a package variable
distinct from `llmCacheConfig.Enabled`), the entry map, the cumulative
stats, and the configuration record of lines 257-269. -/
structure CacheState where
  LLMCacheEnabled : Bool
  LLMCacheTTL : Nat
  LLMCacheMaxSize : Nat
  LLMCacheMinResponseLength : Nat
  LLMCacheMaxResponseLength : Nat
  llmCache : List (String × LLMCacheItem)
  llmCacheStats : LLMCacheStats
  llmCacheConfig : LLMCacheConfig
deriving DecidableEq, Repr

/-! ## Operations of the model layer -/

/-- Embedding of `GetLLMCache` (lines 314-350). Returns the state after
the call together with the Go return values `(*LLMCacheItem, bool)`.
The Go in-place update of the hit entry through its pointer
(`item.HitCount++`, `item.LastAccessed = now`) is an update of the map
binding in the value-semantics model. -/
def GetLLMCache (s : CacheState) (key : String) (now : Nat) :
    CacheState × Option LLMCacheItem × Bool :=
  if !s.LLMCacheEnabled then (s, none, false)
  else
    match mapGet s.llmCache key with
    | none =>
        ({ s with llmCacheStats := { s.llmCacheStats with Misses := s.llmCacheStats.Misses + 1 } },
         none, false)
    | some item =>
        if now > item.ExpiresAt then
          ({ s with
              llmCache := mapDel s.llmCache key,
              llmCacheStats := { s.llmCacheStats with
                TotalItems := s.llmCacheStats.TotalItems - 1,
                Misses := s.llmCacheStats.Misses + 1 } },
           none, false)
        else
          let item' := { item with HitCount := item.HitCount + 1, LastAccessed := now }
          ({ s with
              llmCache := mapSet s.llmCache key item',
              llmCacheStats := { s.llmCacheStats with Hits := s.llmCacheStats.Hits + 1 } },
           some item', true)

/-- The selection loop of `evictLRU` (lines 423-431): scan all entries
for the smallest `LastAccessed` strictly below the accumulator, which
starts as `("", time.Now().Unix())` — note the strict `<` against the
current time. -/
def lruScan (l : List (String × LLMCacheItem)) (acc : String × Nat) : String × Nat :=
  l.foldl
    (fun (acc : String × Nat) p =>
      if p.2.LastAccessed < acc.2 then (p.1, p.2.LastAccessed) else acc)
    acc

/-- Embedding of `evictLRU` (lines 422-438), continued: remove the
selected key, if any, and count one eviction. -/
def evictLRU (s : CacheState) (now : Nat) : CacheState :=
  let scan := lruScan s.llmCache ("", now)
  if scan.1 ≠ "" then
    { s with
        llmCache := mapDel s.llmCache scan.1,
        llmCacheStats := { s.llmCacheStats with Evictions := s.llmCacheStats.Evictions + 1 } }
  else s

/-- The `responseText` extraction of `SetLLMCache` (lines 361-364): the
first choice's string content, or `""` when there is no choice. -/
def setCacheResponseText (response : TextResponse) : String :=
  match response.Choices with
  | [] => ""
  | choice :: _ => choice.Message.StringContent

/-- The item construction of `SetLLMCache` (lines 372-394): a fresh entry
with `CreatedAt = now`, `ExpiresAt = now + LLMCacheTTL`, `HitCount = 0`,
`LastAccessed = now` and the diagnostic snapshot of the numeric request
parameters (temperature, top-p, and max-tokens when nonzero). -/
def setCacheItem (key : String) (response : TextResponse) (usage : Usage)
    (request : GeneralOpenAIRequest) (now ttl : Nat) : LLMCacheItem :=
  let rp0 : List (String × RequestParamValue) := []
  let rp1 := match request.Temperature with
    | some t => rp0 ++ [("temperature", RequestParamValue.floatV t)]
    | none => rp0
  let rp2 := match request.TopP with
    | some t => rp1 ++ [("top_p", RequestParamValue.floatV t)]
    | none => rp1
  let rp3 := if request.MaxTokens ≠ 0 then
      rp2 ++ [("max_tokens", RequestParamValue.intV request.MaxTokens)]
    else rp2
  { RequestHash := key, Model := request.Model, Response := response, Usage := usage,
    CreatedAt := now, ExpiresAt := now + ttl, HitCount := 0,
    LastAccessed := now, RequestParams := rp3 }

/-- Embedding of `SetLLMCache` (lines 353-419): no-op when the package
variable `LLMCacheEnabled` is false; silent rejection when the extracted
text length is outside the configured bounds; otherwise build the item,
evict once if at or above capacity, store the item and bump `TotalItems`.
The detached Redis mirror write is omitted. -/
def SetLLMCache (s : CacheState) (key : String) (response : TextResponse)
    (usage : Usage) (request : GeneralOpenAIRequest) (now : Nat) : CacheState :=
  if !s.LLMCacheEnabled then s
  else
    let responseText := setCacheResponseText response
    if goLen responseText < s.LLMCacheMinResponseLength ∨
        goLen responseText > s.LLMCacheMaxResponseLength then s
    else
      let item := setCacheItem key response usage request now s.LLMCacheTTL
      let s1 := if s.llmCache.length ≥ s.LLMCacheMaxSize then evictLRU s now else s
      { s1 with
          llmCache := mapSet s1.llmCache key item,
          llmCacheStats := { s1.llmCacheStats with TotalItems := s1.llmCacheStats.TotalItems + 1 } }

/-- Embedding of `UpdateLLMCacheConfig` (lines 533-546): swap the
configuration record; when the new configuration disables the cache,
replace the map and the stats with fresh empty ones in the same critical
section. Note the package variable `LLMCacheEnabled` is not touched. -/
def UpdateLLMCacheConfig (s : CacheState) (config : LLMCacheConfig) : CacheState :=
  let s1 := { s with llmCacheConfig := config }
  if !config.Enabled then
    { s1 with llmCache := [], llmCacheStats := emptyLLMCacheStats }
  else s1

/-- Embedding of `GetLLMCacheStats` (lines 462-470): a copy of the
counters with `TotalItems` recomputed from the live map size and
`MaxSize` from the package variable. -/
def GetLLMCacheStats (s : CacheState) : LLMCacheStats :=
  { s.llmCacheStats with
      TotalItems := (s.llmCache.length : Int),
      MaxSize := (s.LLMCacheMaxSize : Int) }

/-- Embedding of `ClearLLMCache` (lines 473-493): wholesale replacement of
the map and the stats (the detached Redis purge is omitted). -/
def ClearLLMCache (s : CacheState) : CacheState :=
  { s with llmCache := [], llmCacheStats := emptyLLMCacheStats }

/-! ## Middleware-layer response interception -/

/-- Embedding of `shouldCache` (src/middleware/llm_cache.go, middleware
layer, lines 120-140): require a first choice, text length within the
configured bounds, and none of the filter substrings in the lowercased
text. -/
def shouldCache (s : CacheState) (response : TextResponse) : Bool :=
  match response.Choices with
  | [] => false
  | choice :: _ =>
    let responseText := choice.Message.StringContent
    if goLen responseText < s.LLMCacheMinResponseLength ∨
        goLen responseText > s.LLMCacheMaxResponseLength then false
    else
      let content := toLowerStr responseText
      if strContains content "error" || strContains content "sorry" ||
          strContains content "cannot" then false
      else true

/-- Embedding of `handleCacheResponse` (middleware layer, lines 100-117):
`parsedResponse = none` models a response body `json.Unmarshal` failure;
otherwise consult `shouldCache` and on success insert into the cache. -/
def handleCacheResponse (s : CacheState) (cacheKey : String)
    (request : GeneralOpenAIRequest) (parsedResponse : Option TextResponse)
    (now : Nat) : CacheState :=
  match parsedResponse with
  | none => s
  | some response =>
      if !shouldCache s response then s
      else SetLLMCache s cacheKey response response.Usage request now

/-- Embedding of the response tail of `LLMCacheMiddleware` (middleware
layer, lines 71-75): the captured response is handed to
`handleCacheResponse` only when the observed status code is 200. -/
def llmCacheAfterResponse (s : CacheState) (statusCode : Nat) (cacheKey : String)
    (request : GeneralOpenAIRequest) (parsedResponse : Option TextResponse)
    (now : Nat) : CacheState :=
  if statusCode = 200 then handleCacheResponse s cacheKey request parsedResponse now else s

/-! ## Pointer-explicit model for the diagnostic listing

`GetLLMCacheItems` (lines 503-512) builds a fresh slice but copies the
`*LLMCacheItem` pointers of the live map into it. To make the aliasing
observable, this refinement of the store makes the pointers explicit: the
map binds keys to heap references and the heap binds references to items;
a caller holding a returned reference can write through it. -/

/-- The entry store with explicit item pointers: `entries` is the
`llmCache` map with `*LLMCacheItem` as references into `heap`. -/
structure HeapCacheState where
  entries : List (String × Nat)
  heap : List (Nat × LLMCacheItem)
  stats : LLMCacheStats
deriving DecidableEq, Repr

/-- Dereference an item pointer. -/
def heapRead (h : List (Nat × LLMCacheItem)) (r : Nat) : Option LLMCacheItem :=
  mapGet h r

/-- A caller's in-place mutation through an item pointer
(`item.Field = v` on a `*LLMCacheItem`). -/
def heapWrite (h : List (Nat × LLMCacheItem)) (r : Nat) (item : LLMCacheItem) :
    List (Nat × LLMCacheItem) :=
  mapSet h r item

/-- Embedding of `GetLLMCacheItems` (lines 503-512) over the
pointer-explicit store: a fresh slice holding the live item pointers
themselves (`items = append(items, item)` copies the pointer, not the
item). -/
def GetLLMCacheItems (s : HeapCacheState) : List Nat :=
  s.entries.map (fun p => p.2)

/-- What a subsequent store read observes for a key: the item its live
pointer currently dereferences to. -/
def readEntryThroughStore (s : HeapCacheState) (key : String) : Option LLMCacheItem :=
  (mapGet s.entries key).bind (heapRead s.heap)

/-! ## Concrete sample values for witnesses and counterexamples -/

/-- The Go initializer of `llmCacheConfig` (lines 261-268). -/
def defaultLLMCacheConfig : LLMCacheConfig :=
  { Enabled := false, TTL := 3600, MaxSize := 10000,
    MinResponseLength := 10, MaxResponseLength := 10000,
    SimilarityThreshold := GoFloat.finite "0.95" }

/-- The default configuration record with `Enabled := false` kept and the
other fields as the Go zero values would be overwritten by an admin
update; used as the disabling update of the counterexamples. -/
def disabledConfig : LLMCacheConfig := defaultLLMCacheConfig

/-- The process state at startup: the package configuration variables of
lines 215-222 (`LLMCacheEnabled = true`), an empty map, zero stats, and
the initial configuration record. -/
def initialCacheState : CacheState :=
  { LLMCacheEnabled := true, LLMCacheTTL := 3600, LLMCacheMaxSize := 10000,
    LLMCacheMinResponseLength := 10, LLMCacheMaxResponseLength := 10000,
    llmCache := [], llmCacheStats := emptyLLMCacheStats,
    llmCacheConfig := defaultLLMCacheConfig }

def sampleUsage : Usage := ⟨3, 7, 10⟩

/-- A cacheable response: ten bytes of text, within the default length
bounds and free of the filter words. -/
def goodResp : TextResponse := ⟨[⟨⟨"assistant", "abcdefghij"⟩⟩], sampleUsage⟩

/-- A response whose text is long enough but contains a filter word. -/
def refusalResp : TextResponse :=
  ⟨[⟨⟨"assistant", "I am Sorry, I cannot help with that request."⟩⟩], sampleUsage⟩

def sampleReq : GeneralOpenAIRequest :=
  { Model := "gpt-4", Messages := [⟨"user", "hi"⟩], MaxTokens := 0,
    Temperature := none, TopP := none, FrequencyPenalty := none,
    PresencePenalty := none, Stream := false, User := "" }

/-- Two requests that agree on the eight cache-relevant fields and differ
elsewhere. -/
def reqUserA : GeneralOpenAIRequest := { sampleReq with User := "alice" }

def reqUserB : GeneralOpenAIRequest := { sampleReq with User := "bob" }

/-- A request whose temperature is not representable in JSON. -/
def reqNaN : GeneralOpenAIRequest := { sampleReq with Temperature := some GoFloat.nan }

/-- A live entry last accessed at time 5. -/
def witItemA : LLMCacheItem :=
  { RequestHash := "a", Model := "gpt-4", Response := goodResp, Usage := sampleUsage,
    CreatedAt := 5, ExpiresAt := 3605, HitCount := 0, LastAccessed := 5, RequestParams := [] }

/-- A live entry last accessed at time 7. -/
def witItemB : LLMCacheItem :=
  { witItemA with RequestHash := "b", CreatedAt := 7, ExpiresAt := 3607, LastAccessed := 7 }

/-- A store at capacity 2 holding two entries with distinct
`LastAccessed` values, both strictly below the insert times used later. -/
def witFullState : CacheState :=
  { initialCacheState with
      LLMCacheMaxSize := 2,
      llmCache := [("a", witItemA), ("b", witItemB)] }

/-- A pointer-explicit store holding one live entry at reference 0. -/
def heapState0 : HeapCacheState :=
  ⟨[("a", 0)], [(0, witItemA)], emptyLLMCacheStats⟩

/-- The item a malicious or careless caller writes through the pointer
obtained from the diagnostic listing. -/
def mutatedItem : LLMCacheItem := { witItemA with ExpiresAt := 0, HitCount := 999 }

/-! ## Validation of the SHA-256 embedding (FIPS 180-4 test vector) -/

example : sha256Bytes (strBytes "abc") =
    [0xba, 0x78, 0x16, 0xbf, 0x8f, 0x01, 0xcf, 0xea, 0x41, 0x41, 0x40, 0xde, 0x5d, 0xae, 0x22, 0x23,
     0xb0, 0x03, 0x61, 0xa3, 0x96, 0x17, 0x7a, 0x9c, 0xb4, 0x10, 0xff, 0x61, 0xf2, 0x00, 0x15, 0xad] := by
  decide

example : hexOfBytes (sha256Bytes (strBytes "abc")) =
    "ba7816bf8f01cfea414140de5dae2223b00361a396177a9cb410ff61f20015ad" := by
  decide

/-! ## Association-list lemmas -/

theorem mapGet_mapSet_self {κ ν : Type} [DecidableEq κ] (l : List (κ × ν)) (k : κ) (v : ν) :
    mapGet (mapSet l k v) k = some v := by
  induction l with
  | nil => simp [mapSet, mapGet]
  | cons p rest ih =>
    by_cases h : p.1 = k
    · simp [mapSet, h, mapGet]
    · simp [mapSet, h, mapGet, ih]

theorem mapGet_mapDel_self {κ ν : Type} [DecidableEq κ] (l : List (κ × ν)) (k : κ) :
    mapGet (mapDel l k) k = none := by
  induction l with
  | nil => rfl
  | cons p rest ih =>
    by_cases h : p.1 = k
    · simpa [mapDel, List.filter_cons, h] using ih
    · simpa [mapDel, List.filter_cons, h, mapGet] using ih

theorem mapGet_mapDel_ne {κ ν : Type} [DecidableEq κ] (l : List (κ × ν)) (k k' : κ)
    (h : k' ≠ k) : mapGet (mapDel l k) k' = mapGet l k' := by
  induction l with
  | nil => rfl
  | cons p rest ih =>
    by_cases hp : p.1 = k
    · have hp' : p.1 ≠ k' := fun hc => h (hc ▸ hp)
      have hd : mapDel (p :: rest) k = mapDel rest k := by
        simp [mapDel, List.filter_cons, hp]
      have hg : mapGet (p :: rest) k' = mapGet rest k' := by
        simp [mapGet, hp']
      rw [hd, hg]; exact ih
    · have hd : mapDel (p :: rest) k = p :: mapDel rest k := by
        simp [mapDel, List.filter_cons, hp]
      rw [hd]
      by_cases hk' : p.1 = k'
      · simp [mapGet, hk']
      · simp [mapGet, hk']; exact ih

theorem length_mapSet_le {κ ν : Type} [DecidableEq κ] (l : List (κ × ν)) (k : κ) (v : ν) :
    (mapSet l k v).length ≤ l.length + 1 := by
  induction l with
  | nil => simp [mapSet]
  | cons p rest ih =>
    by_cases h : p.1 = k
    · simp [mapSet, h]
    · simpa [mapSet, h, Nat.succ_le_succ_iff] using ih

theorem mapDel_eq_self_of_not_mem {κ ν : Type} [DecidableEq κ] (l : List (κ × ν)) (k : κ)
    (h : k ∉ l.map Prod.fst) : mapDel l k = l := by
  induction l with
  | nil => rfl
  | cons p rest ih =>
    have hp : p.1 ≠ k := by
      intro hc
      exact h (by simp [hc])
    have h2 : k ∉ rest.map Prod.fst := by
      intro hm
      exact h (by simp [hm])
    have hd : mapDel (p :: rest) k = p :: mapDel rest k := by
      simp [mapDel, List.filter_cons, hp]
    rw [hd, ih h2]

theorem length_mapDel_of_mem {κ ν : Type} [DecidableEq κ] (l : List (κ × ν)) (k : κ)
    (hnd : (l.map Prod.fst).Nodup) (hk : k ∈ l.map Prod.fst) :
    (mapDel l k).length + 1 = l.length := by
  induction l with
  | nil => simp at hk
  | cons p rest ih =>
    simp only [List.map_cons, List.nodup_cons] at hnd
    rcases List.mem_cons.mp hk with hk1 | hk2
    · have hrest : mapDel rest k = rest := mapDel_eq_self_of_not_mem rest k
        (by rw [hk1]; exact hnd.1)
      have hd : mapDel (p :: rest) k = mapDel rest k := by
        simp [mapDel, List.filter_cons, hk1]
      rw [hd, hrest]
      simp
    · have hp : p.1 ≠ k := fun hc => hnd.1 (hc.symm ▸ hk2)
      have hih := ih hnd.2 hk2
      have hd : mapDel (p :: rest) k = p :: mapDel rest k := by
        simp [mapDel, List.filter_cons, hp]
      rw [hd]
      simp only [List.length_cons]
      omega

theorem mapGet_eq_of_mem {κ ν : Type} [DecidableEq κ] {l : List (κ × ν)} {p : κ × ν}
    (hnd : (l.map Prod.fst).Nodup) (hp : p ∈ l) : mapGet l p.1 = some p.2 := by
  induction l with
  | nil => simp at hp
  | cons q rest ih =>
    simp only [List.map_cons, List.nodup_cons] at hnd
    rcases List.mem_cons.mp hp with hq | hrest
    · simp [mapGet, hq]
    · have hq1 : q.1 ≠ p.1 := fun hc =>
        hnd.1 (hc ▸ List.mem_map_of_mem Prod.fst hrest)
      simp [mapGet, hq1]
      exact ih hnd.2 hrest

/-! ## Lemmas on the LRU selection scan -/

theorem lruScan_spec (l : List (String × LLMCacheItem)) (acc : String × Nat) :
    (lruScan l acc = acc ∧ ∀ p ∈ l, ¬ p.2.LastAccessed < acc.2) ∨
    (∃ p ∈ l, lruScan l acc = (p.1, p.2.LastAccessed) ∧ p.2.LastAccessed < acc.2) := by
  induction l generalizing acc with
  | nil => exact Or.inl ⟨rfl, by simp⟩
  | cons x xs ih =>
    by_cases h : x.2.LastAccessed < acc.2
    · have hstep : lruScan (x :: xs) acc = lruScan xs (x.1, x.2.LastAccessed) := by
        simp [lruScan, List.foldl_cons, h]
      rcases ih (x.1, x.2.LastAccessed) with ⟨heq, _⟩ | ⟨p, hp, heq, hlt⟩
      · exact Or.inr ⟨x, List.mem_cons_self x xs, by rw [hstep, heq], h⟩
      · exact Or.inr ⟨p, List.mem_cons_of_mem x hp, by rw [hstep, heq],
          lt_trans hlt h⟩
    · have hstep : lruScan (x :: xs) acc = lruScan xs acc := by
        simp [lruScan, List.foldl_cons, h]
      rcases ih acc with ⟨heq, hall⟩ | ⟨p, hp, heq, hlt⟩
      · refine Or.inl ⟨by rw [hstep, heq], ?_⟩
        intro p hp
        rcases List.mem_cons.mp hp with hx | hxs
        · exact hx ▸ h
        · exact hall p hxs
      · exact Or.inr ⟨p, List.mem_cons_of_mem x hp, by rw [hstep, heq], hlt⟩

theorem lruScan_min (l : List (String × LLMCacheItem)) (acc : String × Nat) :
    (lruScan l acc).2 ≤ acc.2 ∧ ∀ p ∈ l, (lruScan l acc).2 ≤ p.2.LastAccessed := by
  induction l generalizing acc with
  | nil => exact ⟨le_refl _, by simp⟩
  | cons x xs ih =>
    by_cases h : x.2.LastAccessed < acc.2
    · have hstep : lruScan (x :: xs) acc = lruScan xs (x.1, x.2.LastAccessed) := by
        simp [lruScan, List.foldl_cons, h]
      obtain ⟨h1, h2⟩ := ih (x.1, x.2.LastAccessed)
      refine ⟨?_, ?_⟩
      · rw [hstep]; exact le_trans h1 (le_of_lt h)
      · intro p hp
        rcases List.mem_cons.mp hp with hx | hxs
        · rw [hstep, hx]; exact h1
        · rw [hstep]; exact h2 p hxs
    · have hstep : lruScan (x :: xs) acc = lruScan xs acc := by
        simp [lruScan, List.foldl_cons, h]
      obtain ⟨h1, h2⟩ := ih acc
      refine ⟨by rw [hstep]; exact h1, ?_⟩
      intro p hp
      rcases List.mem_cons.mp hp with hx | hxs
      · rw [hstep, hx]; exact le_trans h1 (le_of_not_lt h)
      · rw [hstep]; exact h2 p hxs

/-! ## Structural lemmas on the cache operations -/

theorem evictLRU_LLMCacheEnabled (s : CacheState) (now : Nat) :
    (evictLRU s now).LLMCacheEnabled = s.LLMCacheEnabled := by
  simp only [evictLRU]
  split <;> rfl

theorem evictLRU_LLMCacheTTL (s : CacheState) (now : Nat) :
    (evictLRU s now).LLMCacheTTL = s.LLMCacheTTL := by
  simp only [evictLRU]
  split <;> rfl

theorem evictLRU_eq_of_scan (s : CacheState) (now : Nat)
    (h : (lruScan s.llmCache ("", now)).1 ≠ "") :
    evictLRU s now =
      { s with
          llmCache := mapDel s.llmCache (lruScan s.llmCache ("", now)).1,
          llmCacheStats := { s.llmCacheStats with
            Evictions := s.llmCacheStats.Evictions + 1 } } := by
  unfold evictLRU
  rw [if_pos h]

theorem setCacheItem_ExpiresAt (key : String) (response : TextResponse) (usage : Usage)
    (request : GeneralOpenAIRequest) (now ttl : Nat) :
    (setCacheItem key response usage request now ttl).ExpiresAt = now + ttl := rfl

theorem SetLLMCache_pos (s : CacheState) (key : String) (response : TextResponse)
    (usage : Usage) (request : GeneralOpenAIRequest) (now : Nat)
    (hE : s.LLMCacheEnabled = true)
    (hlen : ¬(goLen (setCacheResponseText response) < s.LLMCacheMinResponseLength ∨
              goLen (setCacheResponseText response) > s.LLMCacheMaxResponseLength)) :
    SetLLMCache s key response usage request now =
      (let s1 := if s.llmCache.length ≥ s.LLMCacheMaxSize then evictLRU s now else s
      { s1 with
          llmCache := mapSet s1.llmCache key
            (setCacheItem key response usage request now s.LLMCacheTTL),
          llmCacheStats := { s1.llmCacheStats with
            TotalItems := s1.llmCacheStats.TotalItems + 1 } }) := by
  unfold SetLLMCache
  rw [hE]
  simp only [Bool.not_true, Bool.false_eq_true, if_false]
  rw [if_neg hlen]

/-! ## Lemmas for the lowercase-hex rendering -/

theorem hexDigitChar_range :
    ∀ n, n < 16 → ('0' ≤ hexDigitChar n ∧ hexDigitChar n ≤ '9') ∨
      ('a' ≤ hexDigitChar n ∧ hexDigitChar n ≤ 'f') := by
  decide

theorem hexOfBytes_lower (bs : List Nat) (hb : ∀ b ∈ bs, b < 256) :
    ∀ c ∈ (hexOfBytes bs).toList,
      ('0' ≤ c ∧ c ≤ '9') ∨ ('a' ≤ c ∧ c ≤ 'f') := by
  induction bs with
  | nil => simp [hexOfBytes]
  | cons b rest ih =>
    intro c hc
    have hb0 : b < 256 := hb b (List.mem_cons_self b rest)
    have hrest : ∀ x ∈ rest, x < 256 := fun x hx => hb x (List.mem_cons_of_mem b hx)
    have hfold : (hexOfBytes (b :: rest)).toList =
        hexDigitChar (b / 16) :: hexDigitChar (b % 16) :: (hexOfBytes rest).toList := by
      simp [hexOfBytes]
    rw [hfold] at hc
    rcases List.mem_cons.mp hc with h1 | hc2
    · exact h1 ▸ hexDigitChar_range (b / 16) (by omega)
    · rcases List.mem_cons.mp hc2 with h2 | hc3
      · exact h2 ▸ hexDigitChar_range (b % 16) (by omega)
      · exact ih hrest c hc3

theorem wordToBytesBE_lt (w : Nat) : ∀ b ∈ wordToBytesBE w, b < 256 := by
  intro b hb
  have h255 : ∀ x : Nat, x &&& 0xff < 256 :=
    fun x => Nat.lt_of_le_of_lt Nat.and_le_right (by norm_num)
  unfold wordToBytesBE at hb
  simp only [List.mem_cons, List.not_mem_nil, or_false] at hb
  rcases hb with h | h | h | h <;> exact h ▸ h255 _

theorem sha256Bytes_lt (msg : List Nat) : ∀ b ∈ sha256Bytes msg, b < 256 := by
  intro b hb
  unfold sha256Bytes at hb
  rw [List.mem_flatten] at hb
  obtain ⟨l, hl, hbl⟩ := hb
  obtain ⟨w, _, hw⟩ := List.mem_map.mp hl
  exact wordToBytesBE_lt w b (hw ▸ hbl)

/-! ## Claim C1 -/

/-- Claim C1, as stated, is false on the code: the enabled flag consulted
by `GetLLMCache` and `SetLLMCache` is the package variable
`LLMCacheEnabled`, not `llmCacheConfig.Enabled`. Concretely, immediately
after `UpdateLLMCacheConfig` with `Enabled := false` (so the
configuration's enabled flag is false), an insert is not a no-op: it
changes the store and creates an entry that a subsequent lookup finds. -/
theorem claim_C1_cex :
    (UpdateLLMCacheConfig initialCacheState disabledConfig).llmCacheConfig.Enabled = false ∧
    (GetLLMCache (SetLLMCache (UpdateLLMCacheConfig initialCacheState disabledConfig) "k"
        goodResp sampleUsage sampleReq 100) "k" 100).2.2 = true ∧
    SetLLMCache (UpdateLLMCacheConfig initialCacheState disabledConfig) "k"
        goodResp sampleUsage sampleReq 100 ≠
      UpdateLLMCacheConfig initialCacheState disabledConfig := by
  decide

/-- Claim C1 (amended): whenever the package variable `LLMCacheEnabled` —
the flag the lookup and insert operations actually consult — is false,
`GetLLMCache` reports not-found for every key without changing the state,
and `SetLLMCache` is a no-op that leaves the store unchanged. (A
configuration update with `enabled:false` does not change
`LLMCacheEnabled`; it clears the store instead.) -/
theorem claim_C1 (s : CacheState) (key : String) (response : TextResponse)
    (usage : Usage) (request : GeneralOpenAIRequest) (now : Nat)
    (hdis : s.LLMCacheEnabled = false) :
    GetLLMCache s key now = (s, none, false) ∧
    SetLLMCache s key response usage request now = s := by
  constructor
  · unfold GetLLMCache
    rw [hdis]
    rfl
  · unfold SetLLMCache
    rw [hdis]
    rfl

/-- Witness for the amended claim C1 at a concrete disabled state. -/
theorem claim_C1_witness :
    GetLLMCache { initialCacheState with LLMCacheEnabled := false } "k" 100 =
      ({ initialCacheState with LLMCacheEnabled := false }, none, false) ∧
    SetLLMCache { initialCacheState with LLMCacheEnabled := false } "k"
      goodResp sampleUsage sampleReq 100 =
      { initialCacheState with LLMCacheEnabled := false } :=
  claim_C1 { initialCacheState with LLMCacheEnabled := false } "k"
    goodResp sampleUsage sampleReq 100 rfl

/-! ## Claim C7 -/

/-- Claim C7: insertion of a response whose extracted text length is
strictly below `LLMCacheMinResponseLength` or strictly above
`LLMCacheMaxResponseLength` is rejected silently — the model-layer insert
is a total function returning the state unchanged, so no error is raised,
no entry is created, and every subsequent lookup behaves exactly as
before the insertion. -/
theorem claim_C7 (s : CacheState) (key : String) (response : TextResponse)
    (usage : Usage) (request : GeneralOpenAIRequest) (now : Nat)
    (hout : goLen (setCacheResponseText response) < s.LLMCacheMinResponseLength ∨
            goLen (setCacheResponseText response) > s.LLMCacheMaxResponseLength) :
    SetLLMCache s key response usage request now = s ∧
    ∀ k2 now2, GetLLMCache (SetLLMCache s key response usage request now) k2 now2 =
               GetLLMCache s k2 now2 := by
  have h1 : SetLLMCache s key response usage request now = s := by
    unfold SetLLMCache
    cases hE : s.LLMCacheEnabled
    · simp
    · simp [hout]
  exact ⟨h1, fun k2 now2 => by rw [h1]⟩

/-- A response whose text ("hi") is shorter than the minimum length. -/
def shortResp : TextResponse := ⟨[⟨⟨"assistant", "hi"⟩⟩], sampleUsage⟩

/-- Witness for claim C7: the two-byte response is rejected and the state
is unchanged. -/
theorem claim_C7_witness :
    SetLLMCache initialCacheState "k" shortResp sampleUsage sampleReq 100 =
      initialCacheState :=
  (claim_C7 initialCacheState "k" shortResp sampleUsage sampleReq 100
    (Or.inl (by decide))).1

/-! ## Claim C10 -/

/-- Claim C10: when the cache is disabled (`LLMCacheEnabled = false`),
`GetLLMCache` returns not-found without modifying any state — in
particular the global miss counter is untouched — whereas a miss on an
enabled store increments the miss counter by one, so the two situations
are distinguishable in the statistics. -/
theorem claim_C10 (s : CacheState) (key : String) (now : Nat)
    (hdis : s.LLMCacheEnabled = false) :
    GetLLMCache s key now = (s, none, false) ∧
    (∀ s2 : CacheState, s2.LLMCacheEnabled = true → mapGet s2.llmCache key = none →
      (GetLLMCache s2 key now).1.llmCacheStats.Misses = s2.llmCacheStats.Misses + 1 ∧
      (GetLLMCache s2 key now).2.2 = false) := by
  constructor
  · unfold GetLLMCache
    rw [hdis]
    rfl
  · intro s2 hE hget
    unfold GetLLMCache
    rw [hE, hget]
    exact ⟨rfl, rfl⟩

/-- Witness for claim C10 at a concrete disabled state (the inner
contrast clause is instantiated by the theorem application itself). -/
theorem claim_C10_witness :
    GetLLMCache { initialCacheState with LLMCacheEnabled := false } "miss-key" 5 =
      ({ initialCacheState with LLMCacheEnabled := false }, none, false) ∧
    (∀ s2 : CacheState, s2.LLMCacheEnabled = true → mapGet s2.llmCache "miss-key" = none →
      (GetLLMCache s2 "miss-key" 5).1.llmCacheStats.Misses = s2.llmCacheStats.Misses + 1 ∧
      (GetLLMCache s2 "miss-key" 5).2.2 = false) :=
  claim_C10 { initialCacheState with LLMCacheEnabled := false } "miss-key" 5 rfl

/-! ## Claim C6 -/

/-- Claim C6: a configuration update with `Enabled := false` clears the
store and resets the statistics in the same operation — immediately
afterwards every lookup (of any previously inserted key in particular)
returns not-found with no entry, and the stats snapshot reports zero
total items. -/
theorem claim_C6 (s : CacheState) (config : LLMCacheConfig)
    (hoff : config.Enabled = false) :
    (∀ key now,
      (GetLLMCache (UpdateLLMCacheConfig s config) key now).2.2 = false ∧
      (GetLLMCache (UpdateLLMCacheConfig s config) key now).2.1 = none) ∧
    (GetLLMCacheStats (UpdateLLMCacheConfig s config)).TotalItems = 0 := by
  have hupd : UpdateLLMCacheConfig s config =
      { s with llmCacheConfig := config, llmCache := [],
               llmCacheStats := emptyLLMCacheStats } := by
    unfold UpdateLLMCacheConfig
    rw [hoff]
    rfl
  constructor
  · intro key now
    rw [hupd]
    unfold GetLLMCache
    cases hE : s.LLMCacheEnabled
    · exact ⟨rfl, rfl⟩
    · exact ⟨rfl, rfl⟩
  · rw [hupd]
    unfold GetLLMCacheStats
    rfl

/-- Witness for claim C6: disabling via a configuration update on a store
holding two entries makes the previously inserted key "a" unfindable and
the stats snapshot report zero items. -/
theorem claim_C6_witness :
    ((GetLLMCache (UpdateLLMCacheConfig witFullState disabledConfig) "a" 10).2.2 = false ∧
     (GetLLMCache (UpdateLLMCacheConfig witFullState disabledConfig) "a" 10).2.1 = none) ∧
    (GetLLMCacheStats (UpdateLLMCacheConfig witFullState disabledConfig)).TotalItems = 0 :=
  ⟨(claim_C6 witFullState disabledConfig rfl).1 "a" 10,
   (claim_C6 witFullState disabledConfig rfl).2⟩

/-! ## Claim C9 -/

/-- Claim C9: the interception layer never caches a status-200 response
whose first choice's text, lowercased, contains "error", "sorry" or
"cannot" — `shouldCache` is false for every such response regardless of
its length, so `handleCacheResponse` leaves the state unchanged and no
cache entry is created. -/
theorem claim_C9 (s : CacheState) (cacheKey : String)
    (request : GeneralOpenAIRequest) (response : TextResponse) (now : Nat)
    (choice : TextResponseChoice) (rest : List TextResponseChoice)
    (hch : response.Choices = choice :: rest)
    (hbad : strContains (toLowerStr choice.Message.StringContent) "error" = true ∨
            strContains (toLowerStr choice.Message.StringContent) "sorry" = true ∨
            strContains (toLowerStr choice.Message.StringContent) "cannot" = true) :
    shouldCache s response = false ∧
    llmCacheAfterResponse s 200 cacheKey request (some response) now = s := by
  have hsc : shouldCache s response = false := by
    unfold shouldCache
    rw [hch]
    by_cases hlen : goLen choice.Message.StringContent < s.LLMCacheMinResponseLength ∨
        goLen choice.Message.StringContent > s.LLMCacheMaxResponseLength
    · simp [hlen]
    · rcases hbad with h | h | h <;> simp [hlen, h]
  refine ⟨hsc, ?_⟩
  unfold llmCacheAfterResponse handleCacheResponse
  simp [hsc]

/-- Witness for claim C9: a long-enough refusal response ("I am Sorry, I
cannot ...") is rejected by the filter and the state is unchanged. -/
theorem claim_C9_witness :
    shouldCache initialCacheState refusalResp = false ∧
    llmCacheAfterResponse initialCacheState 200 "k" sampleReq (some refusalResp) 100 =
      initialCacheState :=
  claim_C9 initialCacheState "k" sampleReq refusalResp 100
    ⟨⟨"assistant", "I am Sorry, I cannot help with that request."⟩⟩ [] rfl
    (Or.inr (Or.inl (by decide)))

/-! ## Lookup characterization lemmas -/

theorem GetLLMCache_found (s : CacheState) (key : String) (now : Nat) (item : LLMCacheItem)
    (hE : s.LLMCacheEnabled = true) (hget : mapGet s.llmCache key = some item)
    (hexp : ¬ now > item.ExpiresAt) :
    GetLLMCache s key now =
      ({ s with
          llmCache := mapSet s.llmCache key
            { item with HitCount := item.HitCount + 1, LastAccessed := now },
          llmCacheStats := { s.llmCacheStats with Hits := s.llmCacheStats.Hits + 1 } },
       some { item with HitCount := item.HitCount + 1, LastAccessed := now }, true) := by
  unfold GetLLMCache
  rw [hE, hget]
  simp [hexp]

theorem GetLLMCache_expired (s : CacheState) (key : String) (now : Nat) (item : LLMCacheItem)
    (hE : s.LLMCacheEnabled = true) (hget : mapGet s.llmCache key = some item)
    (hexp : now > item.ExpiresAt) :
    GetLLMCache s key now =
      ({ s with
          llmCache := mapDel s.llmCache key,
          llmCacheStats := { s.llmCacheStats with
            TotalItems := s.llmCacheStats.TotalItems - 1,
            Misses := s.llmCacheStats.Misses + 1 } },
       none, false) := by
  unfold GetLLMCache
  rw [hE, hget]
  simp [hexp]

/-! ## Claim C3 -/

/-- Claim C3, as stated, is false on the code at the boundary: the expiry
test is strict (`time.Now().Unix() > item.ExpiresAt`), so a lookup at
time exactly `createdAt + ttl` still returns found, where the claim
demands not-found for every time `≥ createdAt + t`. Concretely: TTL 50,
insert at 100, lookup at 150 returns found. -/
theorem claim_C3_cex :
    (GetLLMCache (SetLLMCache { initialCacheState with LLMCacheTTL := 50 } "k"
        goodResp sampleUsage sampleReq 100) "k" 150).2.2 = true ∧
    100 + ({ initialCacheState with LLMCacheTTL := 50 } : CacheState).LLMCacheTTL ≤ 150 := by
  decide

/-- Claim C3 (amended): for an entry inserted at `now1` with TTL `t` (so
`ExpiresAt = now1 + t`), lookup of its key returns found at any time
`≤ now1 + t`, and at any time strictly greater than `now1 + t` it returns
not-found and removes the entry from the store in the same operation. -/
theorem claim_C3 (s : CacheState) (key : String) (response : TextResponse)
    (usage : Usage) (request : GeneralOpenAIRequest) (now1 now2 : Nat)
    (hE : s.LLMCacheEnabled = true)
    (hmin : s.LLMCacheMinResponseLength ≤ goLen (setCacheResponseText response))
    (hmax : goLen (setCacheResponseText response) ≤ s.LLMCacheMaxResponseLength) :
    (now2 ≤ now1 + s.LLMCacheTTL →
      (GetLLMCache (SetLLMCache s key response usage request now1) key now2).2.2 = true) ∧
    (now1 + s.LLMCacheTTL < now2 →
      (GetLLMCache (SetLLMCache s key response usage request now1) key now2).2.2 = false ∧
      mapGet (GetLLMCache (SetLLMCache s key response usage request now1) key now2).1.llmCache
        key = none) := by
  have hlen : ¬(goLen (setCacheResponseText response) < s.LLMCacheMinResponseLength ∨
      goLen (setCacheResponseText response) > s.LLMCacheMaxResponseLength) := by
    rw [not_or]
    exact ⟨not_lt.mpr hmin, not_lt.mpr hmax⟩
  have hset := SetLLMCache_pos s key response usage request now1 hE hlen
  have hE' : (SetLLMCache s key response usage request now1).LLMCacheEnabled = true := by
    rw [hset]
    show (if s.llmCache.length ≥ s.LLMCacheMaxSize then evictLRU s now1 else s).LLMCacheEnabled =
      true
    by_cases hc : s.llmCache.length ≥ s.LLMCacheMaxSize
    · rw [if_pos hc, evictLRU_LLMCacheEnabled]; exact hE
    · rw [if_neg hc]; exact hE
  have hget : mapGet (SetLLMCache s key response usage request now1).llmCache key =
      some (setCacheItem key response usage request now1 s.LLMCacheTTL) := by
    rw [hset]
    show mapGet (mapSet
      (if s.llmCache.length ≥ s.LLMCacheMaxSize then evictLRU s now1 else s).llmCache key
      (setCacheItem key response usage request now1 s.LLMCacheTTL)) key = _
    exact mapGet_mapSet_self _ _ _
  constructor
  · intro h2
    rw [GetLLMCache_found (SetLLMCache s key response usage request now1) key now2 _ hE' hget
      (by rw [setCacheItem_ExpiresAt]; omega)]
  · intro h2
    rw [GetLLMCache_expired (SetLLMCache s key response usage request now1) key now2 _ hE' hget
      (by rw [setCacheItem_ExpiresAt]; omega)]
    exact ⟨rfl, mapGet_mapDel_self _ _⟩

/-- Witness for the amended claim C3: with the default TTL of 3600, an
entry inserted at 100 is found at 3700 (= exactly createdAt + TTL) and is
gone, with a not-found answer, at 3701. -/
theorem claim_C3_witness :
    (GetLLMCache (SetLLMCache initialCacheState "k" goodResp sampleUsage sampleReq 100)
      "k" 3700).2.2 = true ∧
    ((GetLLMCache (SetLLMCache initialCacheState "k" goodResp sampleUsage sampleReq 100)
      "k" 3701).2.2 = false ∧
     mapGet (GetLLMCache (SetLLMCache initialCacheState "k" goodResp sampleUsage sampleReq 100)
      "k" 3701).1.llmCache "k" = none) :=
  ⟨(claim_C3 initialCacheState "k" goodResp sampleUsage sampleReq 100 3700 rfl
      (by decide) (by decide)).1 (by decide),
   (claim_C3 initialCacheState "k" goodResp sampleUsage sampleReq 100 3701 rfl
      (by decide) (by decide)).2 (by decide)⟩

/-! ## Claim C2 -/

/-- Claim C2, as stated, is false on the code: `evictLRU` starts its scan
at `oldestTime = time.Now().Unix()` with a strict comparison, so when
every live entry was last accessed at the current second nothing is
selected and nothing is evicted, yet the new entry is still stored.
Concretely with `maxEntries = 1`: insert "a" at time 100, then insert "b"
at time 100 — the second insert runs at capacity, evicts nothing
(eviction counter stays 0) and the store ends with 2 > 1 live entries. -/
theorem claim_C2_cex :
    (SetLLMCache { initialCacheState with LLMCacheMaxSize := 1 } "a"
        goodResp sampleUsage sampleReq 100).llmCache.length = 1 ∧
    (SetLLMCache (SetLLMCache { initialCacheState with LLMCacheMaxSize := 1 } "a"
        goodResp sampleUsage sampleReq 100) "b"
        goodResp sampleUsage sampleReq 100).llmCache.length = 2 ∧
    ({ initialCacheState with LLMCacheMaxSize := 1 } : CacheState).LLMCacheMaxSize = 1 ∧
    (SetLLMCache (SetLLMCache { initialCacheState with LLMCacheMaxSize := 1 } "a"
        goodResp sampleUsage sampleReq 100) "b"
        goodResp sampleUsage sampleReq 100).llmCacheStats.Evictions = 0 := by
  decide

/-- Claim C2 (amended): an insert performed at or above capacity removes
exactly one existing entry and increments the eviction counter by exactly
one, provided at least one live entry was last accessed strictly before
the insert time and no live entry has the empty string as its key; in
that case the store does not grow past its pre-insert size. (When no
entry is strictly older than the insert time the eviction scan selects
nothing, and the store can exceed `maxEntries`.) -/
theorem claim_C2 (s : CacheState) (key : String) (response : TextResponse)
    (usage : Usage) (request : GeneralOpenAIRequest) (now : Nat)
    (hE : s.LLMCacheEnabled = true)
    (hmin : s.LLMCacheMinResponseLength ≤ goLen (setCacheResponseText response))
    (hmax : goLen (setCacheResponseText response) ≤ s.LLMCacheMaxResponseLength)
    (hcap : s.llmCache.length ≥ s.LLMCacheMaxSize)
    (hnd : (s.llmCache.map Prod.fst).Nodup)
    (hold : ∃ p ∈ s.llmCache, p.2.LastAccessed < now)
    (hkeys : ∀ p ∈ s.llmCache, p.1 ≠ "") :
    (SetLLMCache s key response usage request now).llmCacheStats.Evictions =
      s.llmCacheStats.Evictions + 1 ∧
    (evictLRU s now).llmCache.length + 1 = s.llmCache.length ∧
    (SetLLMCache s key response usage request now).llmCache.length ≤ s.llmCache.length := by
  have hlen : ¬(goLen (setCacheResponseText response) < s.LLMCacheMinResponseLength ∨
      goLen (setCacheResponseText response) > s.LLMCacheMaxResponseLength) := by
    rw [not_or]
    exact ⟨not_lt.mpr hmin, not_lt.mpr hmax⟩
  obtain ⟨p0, hp0, hlt0⟩ := hold
  rcases lruScan_spec s.llmCache ("", now) with ⟨_, hall⟩ | ⟨p, hp, heq, hlt⟩
  · exact absurd hlt0 (hall p0 hp0)
  · have hscan1 : (lruScan s.llmCache ("", now)).1 = p.1 := by rw [heq]
    have hk : (lruScan s.llmCache ("", now)).1 ≠ "" := by
      rw [hscan1]; exact hkeys p hp
    have hev := evictLRU_eq_of_scan s now hk
    have hmemk : (lruScan s.llmCache ("", now)).1 ∈ s.llmCache.map Prod.fst := by
      rw [hscan1]; exact List.mem_map_of_mem Prod.fst hp
    have hdel := length_mapDel_of_mem s.llmCache (lruScan s.llmCache ("", now)).1 hnd hmemk
    have hpos := SetLLMCache_pos s key response usage request now hE hlen
    refine ⟨?_, ?_, ?_⟩
    · rw [hpos]
      show (if s.llmCache.length ≥ s.LLMCacheMaxSize then evictLRU s now
        else s).llmCacheStats.Evictions = s.llmCacheStats.Evictions + 1
      rw [if_pos hcap, hev]
    · rw [hev]
      show (mapDel s.llmCache (lruScan s.llmCache ("", now)).1).length + 1 =
        s.llmCache.length
      exact hdel
    · rw [hpos]
      show (mapSet (if s.llmCache.length ≥ s.LLMCacheMaxSize then evictLRU s now
          else s).llmCache key (setCacheItem key response usage request now s.LLMCacheTTL)).length ≤
        s.llmCache.length
      rw [if_pos hcap, hev]
      show (mapSet (mapDel s.llmCache (lruScan s.llmCache ("", now)).1) key
          (setCacheItem key response usage request now s.LLMCacheTTL)).length ≤
        s.llmCache.length
      have ha := length_mapSet_le (mapDel s.llmCache (lruScan s.llmCache ("", now)).1) key
        (setCacheItem key response usage request now s.LLMCacheTTL)
      omega

/-- Witness for the amended claim C2 at a concrete store at capacity 2
whose entries were last accessed at times 5 and 7, inserting at time 10. -/
theorem claim_C2_witness :
    (SetLLMCache witFullState "c" goodResp sampleUsage sampleReq 10).llmCacheStats.Evictions =
      witFullState.llmCacheStats.Evictions + 1 ∧
    (evictLRU witFullState 10).llmCache.length + 1 = witFullState.llmCache.length ∧
    (SetLLMCache witFullState "c" goodResp sampleUsage sampleReq 10).llmCache.length ≤
      witFullState.llmCache.length :=
  claim_C2 witFullState "c" goodResp sampleUsage sampleReq 10 rfl (by decide) (by decide)
    (by decide) (by decide) (by decide) (by decide)

/-! ## Claim C4 -/

/-- Claim C4, as stated, is false on the code: an insert at capacity can
trigger the eviction scan and still remove nothing. With `maxEntries = 1`
and a single entry (trivially pairwise-distinct `LastAccessed`) whose
`LastAccessed` equals the insert time, the scan's strict comparison
against `oldestTime = now` selects no key: no entry is removed and the
eviction counter is not incremented. -/
theorem claim_C4_cex :
    (SetLLMCache { initialCacheState with LLMCacheMaxSize := 1 } "x"
        goodResp sampleUsage sampleReq 200).llmCache.length ≥
      ({ initialCacheState with LLMCacheMaxSize := 1 } : CacheState).LLMCacheMaxSize ∧
    (mapGet (SetLLMCache (SetLLMCache { initialCacheState with LLMCacheMaxSize := 1 } "x"
        goodResp sampleUsage sampleReq 200) "y"
        goodResp sampleUsage sampleReq 200).llmCache "x").isSome = true ∧
    (SetLLMCache (SetLLMCache { initialCacheState with LLMCacheMaxSize := 1 } "x"
        goodResp sampleUsage sampleReq 200) "y"
        goodResp sampleUsage sampleReq 200).llmCache.length = 2 ∧
    (SetLLMCache (SetLLMCache { initialCacheState with LLMCacheMaxSize := 1 } "x"
        goodResp sampleUsage sampleReq 200) "y"
        goodResp sampleUsage sampleReq 200).llmCacheStats.Evictions = 0 := by
  decide

/-- Claim C4 (amended): when the eviction scan runs over a store whose
entry `p` is strictly least-recently-accessed (this holds in particular
when all `LastAccessed` values are pairwise distinct and `p` carries the
smallest), `p` was accessed strictly before the current time, and `p`'s
key is nonempty, then `evictLRU` increments the eviction counter by
exactly one, removes exactly `p`'s key, and leaves every other key's
binding unchanged. -/
theorem claim_C4 (s : CacheState) (now : Nat) (p : String × LLMCacheItem)
    (hmem : p ∈ s.llmCache)
    (hdist : ∀ q ∈ s.llmCache, q ≠ p → p.2.LastAccessed < q.2.LastAccessed)
    (hlt : p.2.LastAccessed < now)
    (hk : p.1 ≠ "") :
    (evictLRU s now).llmCacheStats.Evictions = s.llmCacheStats.Evictions + 1 ∧
    mapGet (evictLRU s now).llmCache p.1 = none ∧
    (∀ q ∈ s.llmCache, q.1 ≠ p.1 →
      mapGet (evictLRU s now).llmCache q.1 = mapGet s.llmCache q.1) := by
  rcases lruScan_spec s.llmCache ("", now) with ⟨_, hall⟩ | ⟨p', hp', heq, hlt'⟩
  · exact absurd hlt (hall p hmem)
  · have hmin2 := (lruScan_min s.llmCache ("", now)).2 p hmem
    have hle : p'.2.LastAccessed ≤ p.2.LastAccessed := by
      rw [heq] at hmin2
      exact hmin2
    have hpp : p' = p := by
      by_contra hne
      have h1 : p.2.LastAccessed < p'.2.LastAccessed := hdist p' hp' hne
      omega
    rw [hpp] at heq
    have hscan1 : (lruScan s.llmCache ("", now)).1 = p.1 := by rw [heq]
    have hkne : (lruScan s.llmCache ("", now)).1 ≠ "" := by rw [hscan1]; exact hk
    have hev := evictLRU_eq_of_scan s now hkne
    refine ⟨?_, ?_, ?_⟩
    · rw [hev]
    · rw [hev]
      show mapGet (mapDel s.llmCache (lruScan s.llmCache ("", now)).1) p.1 = none
      rw [hscan1]
      exact mapGet_mapDel_self _ _
    · intro q hq hqne
      rw [hev]
      show mapGet (mapDel s.llmCache (lruScan s.llmCache ("", now)).1) q.1 =
        mapGet s.llmCache q.1
      rw [hscan1]
      exact mapGet_mapDel_ne _ _ _ hqne

/-- Witness for the amended claim C4: in the two-entry store with
distinct access times 5 < 7, the scan at time 10 removes exactly the
entry "a" (the least recently accessed) and counts one eviction. -/
theorem claim_C4_witness :
    (evictLRU witFullState 10).llmCacheStats.Evictions =
      witFullState.llmCacheStats.Evictions + 1 ∧
    mapGet (evictLRU witFullState 10).llmCache "a" = none ∧
    (∀ q ∈ witFullState.llmCache, q.1 ≠ "a" →
      mapGet (evictLRU witFullState 10).llmCache q.1 = mapGet witFullState.llmCache q.1) :=
  claim_C4 witFullState 10 ("a", witItemA) (by decide) (by decide) (by decide) (by decide)

/-! ## Claim C5 -/

/-- Claim C5: the fingerprint depends only on the eight cache-relevant
fields (two requests agreeing on model, messages, max-tokens,
temperature, top-p, frequency-penalty, presence-penalty and stream get
the same key); whenever it is nonempty — i.e. whenever the canonical
serialization succeeds — the key is the fixed namespace tag `llm_cache:`
followed by the SHA-256 digest of the serialization rendered as two
lowercase hexadecimal digits per byte; and when serialization fails the
function returns the empty string (it is total, so no error is raised). -/
theorem claim_C5 (r1 r2 : GeneralOpenAIRequest)
    (hmodel : r1.Model = r2.Model) (hmsg : r1.Messages = r2.Messages)
    (hmt : r1.MaxTokens = r2.MaxTokens) (htemp : r1.Temperature = r2.Temperature)
    (htp : r1.TopP = r2.TopP) (hfp : r1.FrequencyPenalty = r2.FrequencyPenalty)
    (hpp : r1.PresencePenalty = r2.PresencePenalty) (hst : r1.Stream = r2.Stream) :
    GenerateCacheKey r1 = GenerateCacheKey r2 ∧
    (∀ j, marshalCacheData r1 = some j →
      GenerateCacheKey r1 = "llm_cache:" ++ hexOfBytes (sha256Bytes (strBytes j)) ∧
      ∀ c ∈ (hexOfBytes (sha256Bytes (strBytes j))).toList,
        ('0' ≤ c ∧ c ≤ '9') ∨ ('a' ≤ c ∧ c ≤ 'f')) ∧
    (marshalCacheData r1 = none → GenerateCacheKey r1 = "") := by
  have hmarsh : marshalCacheData r1 = marshalCacheData r2 := by
    unfold marshalCacheData
    rw [hmodel, hmsg, hmt, htemp, htp, hfp, hpp, hst]
  refine ⟨?_, ?_, ?_⟩
  · unfold GenerateCacheKey
    rw [hmarsh]
  · intro j hj
    constructor
    · unfold GenerateCacheKey
      rw [hj]
    · exact hexOfBytes_lower _ (sha256Bytes_lt _)
  · intro hnone
    unfold GenerateCacheKey
    rw [hnone]

/-- Witness for claim C5: two concrete requests differing only in a field
outside the fingerprinted eight (the user) receive the same cache key. -/
theorem claim_C5_witness :
    GenerateCacheKey reqUserA = GenerateCacheKey reqUserB :=
  (claim_C5 reqUserA reqUserB rfl rfl rfl rfl rfl rfl rfl rfl).1

example : GenerateCacheKey reqNaN = "" := rfl

example : marshalCacheData reqNaN = none := rfl

/-! ## Claim C8 -/

/-- Claim C8, as stated, is false on the code: `GetLLMCacheItems` builds
a fresh slice but fills it with the live `*LLMCacheItem` pointers, so a
mutation made through an element of the returned slice changes the live
entry. Concretely: listing the one-entry store yields its live pointer;
writing through that pointer makes a subsequent store read of key "a"
observe the mutated item. -/
theorem claim_C8_cex :
    GetLLMCacheItems heapState0 = [0] ∧
    readEntryThroughStore heapState0 "a" = some witItemA ∧
    readEntryThroughStore
      { heapState0 with heap := heapWrite heapState0.heap 0 mutatedItem } "a" =
      some mutatedItem ∧
    mutatedItem ≠ witItemA := by
  decide

/-- Claim C8 (amended): the stats snapshot is a plain value copy, and the
slice returned by `GetLLMCacheItems` is itself fresh, but its elements
are exactly the live entry pointers of the store: every returned
reference is the reference of some live key, and writing any item through
it is observed by subsequent store reads of that key. -/
theorem claim_C8 (s : HeapCacheState) (r : Nat)
    (hnd : (s.entries.map Prod.fst).Nodup)
    (hr : r ∈ GetLLMCacheItems s) :
    ∃ k, mapGet s.entries k = some r ∧
      ∀ newItem, readEntryThroughStore
        { s with heap := heapWrite s.heap r newItem } k = some newItem := by
  unfold GetLLMCacheItems at hr
  obtain ⟨p, hp, hpr⟩ := List.mem_map.mp hr
  refine ⟨p.1, ?_, ?_⟩
  · rw [← hpr]
    exact mapGet_eq_of_mem hnd hp
  · intro newItem
    unfold readEntryThroughStore
    show (mapGet s.entries p.1).bind (heapRead (heapWrite s.heap r newItem)) = some newItem
    rw [mapGet_eq_of_mem hnd hp, hpr]
    show heapRead (heapWrite s.heap r newItem) r = some newItem
    unfold heapRead heapWrite
    exact mapGet_mapSet_self _ _ _

/-- Witness for the amended claim C8 on the concrete one-entry store. -/
theorem claim_C8_witness :
    ∃ k, mapGet heapState0.entries k = some 0 ∧
      ∀ newItem, readEntryThroughStore
        { heapState0 with heap := heapWrite heapState0.heap 0 newItem } k = some newItem :=
  claim_C8 heapState0 0 (by decide) (by decide)
